import Mathlib

/-!
Formal model of the actor pipeline runtime in ktz/multiprocessing.py.

The Python module defines Control sentinels (poison and eol), an Actor
process abstraction (default message pump, poison counting, send, log,
lifecycle run) and a Relay coordinator (connect wiring, start and join
lifecycle, log thread).  Every definition below is translated from that
source file.  Concurrency is modelled by making each lock protected
section or single queue operation one atomic step on explicit state, and
shared objects (queues, counter objects) are identified by allocation
index, so equal indices denote the same object and distinct indices
denote distinct objects.
-/

namespace KtzMp

/-- Values carried on a channel between two groups: the Control.poison
sentinel, the Control.eol sentinel, or an ordinary (args, kwargs)
payload tuple. -/
inductive Msg (α β : Type) where
  | poison : Msg α β
  | eol : Msg α β
  | payload (args : α) (kwargs : β) : Msg α β
deriving DecidableEq

/-- Modulus of the C unsigned int backing the counter allocated by
ctx.Value with type code I. -/
def UINT_MOD : Nat := 4294967296

/-- Static termination data assigned to a receiving Actor by
Relay.connect: the fields _expected_poison and _peer_count. -/
structure Boundary where
  expected : Nat
  peers : Nat
deriving DecidableEq

/-- State touched by the default message pump of one Actor: the contents
of the inbound channel it reads (the head of the list is dequeued first,
put appends at the back), the value of the counter object bound to its
field _received_poison, and the trace of recv invocations. -/
structure PumpState (α β : Type) where
  queue : List (Msg α β)
  counter : Nat
  recvd : List (α × β)
deriving DecidableEq

/-- Translation of Actor._add_poison: while holding the lock of the
counter object, increment its value (a C unsigned int, hence reduced
mod 2 ^ 32) and, exactly when the new value equals _expected_poison, put
_peer_count eol sentinels on the inbound channel. -/
def add_poison {α β : Type} (b : Boundary) (st : PumpState α β) : PumpState α β :=
  let c := (st.counter + 1) % UINT_MOD
  { st with
    counter := c
    queue := if c = b.expected then st.queue ++ List.replicate b.peers Msg.eol else st.queue }

/-- Outcome of one iteration of the default Actor.loop body. -/
inductive StepResult (α β : Type) where
  | blocked : StepResult α β
  | continued (st : PumpState α β) : StepResult α β
  | returned (st : PumpState α β) : StepResult α β
deriving DecidableEq

/-- One iteration of the default Actor.loop: dequeue one value from the
inbound channel (blocking while it is empty), then dispatch on it:
poison runs _add_poison and continues, eol breaks out of the loop,
anything else is an (args, kwargs) tuple handed to recv. -/
def loop_step {α β : Type} (b : Boundary) (st : PumpState α β) : StepResult α β :=
  match st.queue with
  | [] => StepResult.blocked
  | Msg.poison :: rest => StepResult.continued (add_poison b { st with queue := rest })
  | Msg.eol :: rest => StepResult.returned { st with queue := rest }
  | Msg.payload args kwargs :: rest =>
      StepResult.continued { st with queue := rest, recvd := st.recvd ++ [(args, kwargs)] }

/-- C1: refuted on the code.  Relay.connect runs ctx.Value once per
downstream Actor, so each downstream Actor counts poison sentinels in a
counter of its own and no counter shared by the group exists.  With two
upstream and two downstream Actors (expected = 2, peers = 2), the
schedule in which each downstream Actor consumes one of the two poison
sentinels leaves both private counters at 1: no increment ever reaches
the threshold, zero eol sentinels are enqueued, and both Actors then
block on the empty channel.  The last conjunct shows the behaviour the
claim describes: were the counter shared, the second consumption would
start from counter 1, reach the threshold, and enqueue exactly two eol
sentinels in one atomic step. -/
theorem poison_counter_not_shared :
    (loop_step (α := Nat) (β := Nat) ⟨2, 2⟩ ⟨[Msg.poison, Msg.poison], 0, []⟩
      = StepResult.continued ⟨[Msg.poison], 1, []⟩) ∧
    (loop_step (α := Nat) (β := Nat) ⟨2, 2⟩ ⟨[Msg.poison], 0, []⟩
      = StepResult.continued ⟨[], 1, []⟩) ∧
    (loop_step (α := Nat) (β := Nat) ⟨2, 2⟩ ⟨[], 1, []⟩ = StepResult.blocked) ∧
    (loop_step (α := Nat) (β := Nat) ⟨2, 2⟩ ⟨[Msg.poison], 1, []⟩
      = StepResult.continued ⟨[Msg.eol, Msg.eol], 2, []⟩) := by
  refine ⟨?_, ?_, ?_, ?_⟩ <;> decide

/-- C2: each iteration of the default loop dequeues one value and
dispatches on it.  A poison value atomically increments the counter,
appends peer_count eol sentinels to the same inbound channel exactly
when the post increment value equals expected_poison, invokes no recv
and continues pumping; an eol value returns from the loop; any other
value is consumed as an (args, kwargs) pair handed to recv, after which
pumping continues. -/
theorem loop_dispatch {α β : Type} (b : Boundary) (st : PumpState α β) (data : Msg α β)
    (rest : List (Msg α β)) (h : st.queue = data :: rest) :
    (data = Msg.poison →
      loop_step b st = StepResult.continued
        { queue := if (st.counter + 1) % UINT_MOD = b.expected
            then rest ++ List.replicate b.peers Msg.eol else rest
          counter := (st.counter + 1) % UINT_MOD
          recvd := st.recvd }) ∧
    (data = Msg.eol → loop_step b st = StepResult.returned { st with queue := rest }) ∧
    (∀ args kwargs, data = Msg.payload args kwargs →
      loop_step b st = StepResult.continued
        { queue := rest, counter := st.counter, recvd := st.recvd ++ [(args, kwargs)] }) := by
  refine ⟨?_, ?_, ?_⟩
  · rintro rfl
    simp [loop_step, h, add_poison]
  · rintro rfl
    simp [loop_step, h]
  · rintro args kwargs rfl
    simp [loop_step, h]

/-- Witness for loop_dispatch: a concrete poison consumption that
reaches the threshold 1 and enqueues two eol sentinels. -/
theorem loop_dispatch_witness :
    loop_step (α := Nat) (β := Nat) ⟨1, 2⟩ ⟨[Msg.poison], 0, []⟩
      = StepResult.continued ⟨[Msg.eol, Msg.eol], 1, []⟩ := by
  have h := (loop_dispatch (α := Nat) (β := Nat) ⟨1, 2⟩ ⟨[Msg.poison], 0, []⟩
      Msg.poison [] rfl).1 rfl
  simpa [UINT_MOD] using h

/-- Hook invocations and channel effects of Actor.run, in order. -/
inductive RunEvent where
  | startupEv : RunEvent
  | loopEv : RunEvent
  | poisonPut : RunEvent
  | shutdownEv : RunEvent
deriving DecidableEq

/-- Trace of one Actor.run call: the events in order, the messages put
on the outbound channel, and the exception that escaped (none when run
returned normally). -/
structure RunResult (α β : Type) where
  events : List RunEvent
  sent : List (Msg α β)
  exc : Option Nat
deriving DecidableEq

/-- Translation of Actor.run: invoke startup, then loop, then put one
poison sentinel on the outbound channel exactly when the Actor owns one
(self.sender), then invoke shutdown.  Nothing is caught: a hook that
raises ends run at that point and the exception escapes.  The three
hooks are abstracted by their outcome (none means returned, some e
means raised e). -/
def run (α β : Type) (hasOutbox : Bool) (startupExc loopExc shutdownExc : Option Nat) :
    RunResult α β :=
  match startupExc with
  | some e => ⟨[RunEvent.startupEv], [], some e⟩
  | none =>
    match loopExc with
    | some e => ⟨[RunEvent.startupEv, RunEvent.loopEv], [], some e⟩
    | none =>
      ⟨[RunEvent.startupEv, RunEvent.loopEv]
          ++ (if hasOutbox then [RunEvent.poisonPut] else []) ++ [RunEvent.shutdownEv],
        if hasOutbox then [Msg.poison] else [],
        shutdownExc⟩

/-- C3: run performs startup, then loop, then exactly one poison
sentinel on the outbound channel if and only if the Actor owns one, then
shutdown; on the exception free path startup and shutdown each occur
exactly once, in that order, around loop; the first exception of
startup, loop or shutdown escapes uncaught, and a raising loop (or
startup) skips the poison emission. -/
theorem run_lifecycle {α β : Type} (hasOutbox : Bool) (sExc lExc shExc : Option Nat) :
    ((run α β hasOutbox sExc lExc shExc).exc
        = sExc.orElse fun _ => lExc.orElse fun _ => shExc) ∧
    (sExc = none → lExc = none →
      (run α β hasOutbox sExc lExc shExc).events
          = [RunEvent.startupEv, RunEvent.loopEv]
            ++ (if hasOutbox then [RunEvent.poisonPut] else []) ++ [RunEvent.shutdownEv] ∧
      (run α β hasOutbox sExc lExc shExc).sent
          = (if hasOutbox then [Msg.poison] else [])) ∧
    (lExc ≠ none → (run α β hasOutbox sExc lExc shExc).sent = []) ∧
    (sExc ≠ none → (run α β hasOutbox sExc lExc shExc).events = [RunEvent.startupEv]) := by
  cases sExc <;> cases lExc <;> cases shExc <;>
    simp [run, Option.orElse]

/-- Witness for run_lifecycle: an Actor owning an outbound channel whose
hooks all return runs startup, loop, one poison emission, shutdown. -/
theorem run_lifecycle_witness :
    (run Nat Nat true none none none).events
        = [RunEvent.startupEv, RunEvent.loopEv, RunEvent.poisonPut, RunEvent.shutdownEv] ∧
    (run Nat Nat true none none none).sent = [Msg.poison] := by
  have h := (run_lifecycle (α := Nat) (β := Nat) true none none none).2.1 rfl rfl
  simpa using h

/-- Runtime view of one Actor for send and for entering the default
loop: the contents of its optional inbound and outbound channels (none
models an absent attribute), the value of its counter object, and its
termination fields. -/
structure ActorRt (α β : Type) where
  inbox : Option (List (Msg α β)) := none
  outbox : Option (List (Msg α β)) := none
  received : Nat := 0
  expected : Nat := 0
  peers : Nat := 0
deriving DecidableEq

/-- Translation of the Actor.sender property: true iff the attribute
_outbox is present. -/
def sender {α β : Type} (a : ActorRt α β) : Bool := a.outbox.isSome

/-- Translation of the Actor.receiver property: true iff the attribute
_inbox is present. -/
def receiver {α β : Type} (a : ActorRt α β) : Bool := a.inbox.isSome

/-- Translation of Actor.send: assert self.sender, then put the
(args, kwargs) tuple on the outbound channel unchanged; none models the
failed assertion, on which nothing is enqueued. -/
def send {α β : Type} (a : ActorRt α β) (args : α) (kwargs : β) : Option (ActorRt α β) :=
  match a.outbox with
  | none => none
  | some q => some { a with outbox := some (q ++ [Msg.payload args kwargs]) }

/-- Translation of the entry of the default Actor.loop: assert
self.receiver before the first dequeue; on success the pump starts on
the inbound channel contents with the counter object of the Actor and
an empty recv trace; none models the failed assertion, with no value
dequeued. -/
def loop_entry {α β : Type} (a : ActorRt α β) : Option (PumpState α β) :=
  match a.inbox with
  | none => none
  | some q => some ⟨q, a.received, []⟩

/-- C7: sender and receiver are pure predicates, true exactly when the
outbound respectively inbound channel is present, and send on a sender
enqueues exactly the (args, kwargs) pair, unchanged, at the back of the
outbound channel. -/
theorem sender_receiver_send {α β : Type} (a : ActorRt α β) :
    (sender a = true ↔ ∃ q, a.outbox = some q) ∧
    (receiver a = true ↔ ∃ q, a.inbox = some q) ∧
    (∀ q args kwargs, a.outbox = some q →
      send a args kwargs = some { a with outbox := some (q ++ [Msg.payload args kwargs]) }) := by
  refine ⟨?_, ?_, ?_⟩
  · simp [sender, Option.isSome_iff_exists]
  · simp [receiver, Option.isSome_iff_exists]
  · intro q args kwargs h
    simp [send, h]

/-- Witness for sender_receiver_send: a concrete sender Actor whose send
appends exactly the given pair to its outbound channel. -/
theorem sender_receiver_send_witness :
    send (α := Nat) (β := Nat) ⟨none, some [], 0, 0, 0⟩ 3 7
      = some ⟨none, some [Msg.payload 3 7], 0, 0, 0⟩ := by
  have h := (sender_receiver_send (α := Nat) (β := Nat) ⟨none, some [], 0, 0, 0⟩).2.2 [] 3 7 rfl
  simpa using h

/-- Wiring record of one Actor as Relay.connect mutates it: the channel
object bound to _inbox and _outbox and the termination fields.  A value
none models an attribute that was never assigned.  Channel objects and
counter objects are named by allocation index. -/
structure ActorC where
  inbox : Option Nat := none
  outbox : Option Nat := none
  peer_count : Option Nat := none
  expected_poison : Option Nat := none
  received_poison : Option Nat := none
deriving DecidableEq

/-- One argument to Relay.connect: a single Actor or an iterable of
Actors. -/
abbrev GArg := ActorC ⊕ List ActorC

/-- Translation of ensure_list in Relay.connect: an iterable is listed,
anything else becomes a one element list. -/
def ensure_list : GArg → List ActorC
  | Sum.inl a => [a]
  | Sum.inr l => l

/-- Insertion on a Python dict in insertion order: an existing key keeps
its position and gets the new value, a new key is appended at the
back. -/
def dict_insert {γ : Type} (d : List (String × γ)) (k : String) (v : γ) : List (String × γ) :=
  if d.any fun p => p.1 == k then d.map fun p => if p.1 == k then (k, v) else p
  else d ++ [(k, v)]

/-- The Python dict union operator: fold the right dict into the left,
right values winning on key collision while keeping the position the
key has in the left dict. -/
def dict_union {γ : Type} (d1 d2 : List (String × γ)) : List (String × γ) :=
  d2.foldl (fun d p => dict_insert d p.1 p.2) d1

/-- Python dict lookup: the value of the first entry carrying the
key. -/
def dict_find {γ : Type} : List (String × γ) → String → Option γ
  | [], _ => none
  | p :: rest, k => if p.1 == k then some p.2 else dict_find rest k

/-- Name generated for the i-th positional argument of Relay.connect. -/
def group_name (i : Nat) : String := "group-" ++ toString i

/-- Truthiness of the maxsize attribute of a Relay (None or an int). -/
def truthy : Option Nat → Bool
  | none => false
  | some k => !(k == 0)

/-- Capacity of the channel allocated for one group pair in
Relay.connect: ctx.Queue(maxsize) when maxsize is truthy, else an
unbounded ctx.Queue(). -/
def queue_cap (maxsize : Option Nat) : Option Nat :=
  if truthy maxsize then maxsize else none

/-- Translation of the receiver loop body in Relay.connect: every Actor
of the downstream group is bound to the shared pair channel cid and
given peer_count, expected_poison and a counter object.  Since
ctx.Value runs once per Actor of the loop, every receiver gets a fresh
counter index, counted by next. -/
def assign_receivers (cid sLen rLen : Nat) : Nat → List ActorC → List ActorC
  | _, [] => []
  | next, a :: rest =>
      { a with inbox := some cid, peer_count := some rLen,
               expected_poison := some sLen, received_poison := some next }
        :: assign_receivers cid sLen rLen (next + 1) rest

/-- Translation of the zip loop in Relay.connect: g is the group at the
front (already holding the fields earlier iterations assigned), and each
adjacent pair is joined by one fresh channel (index cid), assigned as
outbox to every upstream Actor and as inbox to every downstream Actor
together with their termination fields. -/
def wire (cid next : Nat) (g : List ActorC) : List (List ActorC) → List (List ActorC)
  | [] => [g]
  | g2 :: rest =>
      (g.map fun a => { a with outbox := some cid })
        :: wire (cid + 1) (next + g2.length)
            (assign_receivers cid g.length g2.length next g2) rest

/-- The zip loop of Relay.connect over the whole group sequence (the zip
is empty when fewer than two groups are present). -/
def wire_groups : List (List ActorC) → List (List ActorC)
  | [] => []
  | g :: rest => wire 0 0 g rest

/-- Result of Relay.connect: the named groups with their wired Actors,
the capacity of each allocated pair channel, and the initial value of
each allocated counter object, in allocation order. -/
structure ConnectResult where
  groups : List (String × List ActorC)
  caps : List (Option Nat)
  counters : List Nat
deriving DecidableEq

/-- Translation of Relay.connect: assert that at least two arguments
were supplied, build the group dict from the auto named positional
arguments merged with the keyword arguments, normalise every entry with
ensure_list, then wire adjacent pairs.  none models the failed
assertion. -/
def connect (maxsize : Option Nat) (args : List GArg) (kwargs : List (String × GArg)) :
    Option ConnectResult :=
  if args.length + kwargs.length > 1 then
    let merged := dict_union (args.enum.map fun p => (group_name p.1, p.2)) kwargs
    let instances := merged.map fun p => ensure_list p.2
    some { groups := (merged.map Prod.fst).zip (wire_groups instances)
           caps := List.replicate (instances.length - 1) (queue_cap maxsize)
           counters := List.replicate ((instances.drop 1).map List.length).sum 0 }
  else none

/-- C4: refuted on the code in one point.  For two positional groups of
two fresh Actors each, connect allocates one channel (index 0), assigns
it as outbox of both upstream Actors and inbox of both downstream
Actors, gives both downstream Actors peer_count 2 and expected_poison 2,
leaves the first group without inbox and the last group without outbox,
and initialises every counter to zero — but the two downstream Actors
receive the distinct counter objects 0 and 1, because ctx.Value runs
inside the per Actor loop: the counter is not one shared object per
boundary, as the claim states. -/
theorem connect_per_actor_counters :
    connect none [Sum.inr [{}, {}], Sum.inr [{}, {}]] []
      = some { groups := [("group-0",
                  [⟨none, some 0, none, none, none⟩, ⟨none, some 0, none, none, none⟩]),
                ("group-1",
                  [⟨some 0, none, some 2, some 2, some 0⟩,
                   ⟨some 0, none, some 2, some 2, some 1⟩])]
               caps := [none]
               counters := [0, 0] } ∧
    ActorC.received_poison ⟨some 0, none, some 2, some 2, some 0⟩
      ≠ ActorC.received_poison ⟨some 0, none, some 2, some 2, some 1⟩ := by
  refine ⟨by decide, by decide⟩

/-- C6: configuration errors fail eagerly.  connect with fewer than two
supplied groups returns the failed assertion; send on an Actor without
outbound channel fails with nothing enqueued; the default loop on an
Actor without inbound channel fails before any dequeue. -/
theorem config_errors :
    (∀ (maxsize : Option Nat) (args : List GArg) (kwargs : List (String × GArg)),
      args.length + kwargs.length ≤ 1 → connect maxsize args kwargs = none) ∧
    (∀ (a : ActorRt Nat Nat) (args kwargs : Nat), a.outbox = none → send a args kwargs = none) ∧
    (∀ a : ActorRt Nat Nat, a.inbox = none → loop_entry a = none) := by
  refine ⟨?_, ?_, ?_⟩
  · intro m args kwargs h
    unfold connect
    rw [if_neg (by omega)]
  · intro a x y h
    simp [send, h]
  · intro a h
    simp [loop_entry, h]

/-- Witness for config_errors: connect of nothing, send without outbox
and the default loop without inbox each fail. -/
theorem config_errors_witness :
    connect none [] [] = none ∧
    send (α := Nat) (β := Nat) ⟨none, none, 0, 0, 0⟩ 1 2 = none ∧
    loop_entry (α := Nat) (β := Nat) ⟨none, none, 0, 0, 0⟩ = none := by
  refine ⟨config_errors.1 none [] [] (by decide),
          config_errors.2.1 ⟨none, none, 0, 0, 0⟩ 1 2 rfl,
          config_errors.2.2 ⟨none, none, 0, 0, 0⟩ rfl⟩

/-- C9: a Relay with maxsize 0 wires unbounded channels exactly as a
Relay without maxsize: the bounded branch of the channel allocation is
taken only when maxsize is truthy, and falsy maxsize (None or 0) yields
an unbounded channel. -/
theorem maxsize_zero_unbounded :
    queue_cap (some 0) = none ∧ queue_cap none = none ∧
    (∀ m : Option Nat, truthy m = false → queue_cap m = none) ∧
    (∀ (args : List GArg) (kwargs : List (String × GArg)),
      connect (some 0) args kwargs = connect none args kwargs) := by
  refine ⟨rfl, rfl, ?_, ?_⟩
  · intro m h
    simp [queue_cap, h]
  · intro args kwargs
    rfl

/-- Witness for maxsize_zero_unbounded: a concrete falsy maxsize and a
concrete connect call on which maxsize 0 and no maxsize agree. -/
theorem maxsize_zero_unbounded_witness :
    queue_cap (some 0) = none ∧
    connect (some 0) [Sum.inl {}, Sum.inl {}] [] = connect none [Sum.inl {}, Sum.inl {}] [] := by
  refine ⟨maxsize_zero_unbounded.2.2.1 (some 0) rfl,
          maxsize_zero_unbounded.2.2.2 [Sum.inl {}, Sum.inl {}] []⟩

/-- Steps taken by Relay.start in the coordinator, in order.  Actors are
named by identifier. -/
inductive RelayEvent where
  | startActor (a : Nat) : RelayEvent
  | startLogThread : RelayEvent
  | handlerRun : RelayEvent
  | joinActor (a : Nat) : RelayEvent
  | logEol : RelayEvent
  | joinLogThread : RelayEvent
deriving DecidableEq

/-- Translation of Relay._start_actors: iterate the groups in order and
the Actors inside each group in order, start each Actor and append it to
the procs list; the events and the procs list grow in the same
order. -/
def start_actors : List (List Nat) → List RelayEvent × List Nat
  | [] => ([], [])
  | g :: rest =>
      ((g.map RelayEvent.startActor) ++ (start_actors rest).1, g ++ (start_actors rest).2)

/-- Translation of Relay._join_actors: pop procs from the front and join
each one in turn. -/
def join_actors : List Nat → List RelayEvent
  | [] => []
  | p :: rest => RelayEvent.joinActor p :: join_actors rest

/-- Translation of Relay._join_logthread: put the eol sentinel on the
log channel, then join the log thread. -/
def join_logthread : List RelayEvent := [RelayEvent.logEol, RelayEvent.joinLogThread]

/-- Translation of Relay.start: start all Actor processes, start the log
thread, run the handler synchronously when one is given, join all
started Actors, then signal and join the log thread. -/
def relay_start (groups : List (List Nat)) (hasHandler : Bool) : List RelayEvent :=
  (start_actors groups).1 ++ [RelayEvent.startLogThread]
    ++ (if hasHandler then [RelayEvent.handlerRun] else [])
    ++ join_actors (start_actors groups).2 ++ join_logthread

lemma start_actors_eq (groups : List (List Nat)) :
    start_actors groups = (groups.flatten.map RelayEvent.startActor, groups.flatten) := by
  induction groups with
  | nil => rfl
  | cons g rest ih => simp [start_actors, ih]

lemma join_actors_eq (procs : List Nat) :
    join_actors procs = procs.map RelayEvent.joinActor := by
  induction procs with
  | nil => rfl
  | cons p rest ih => simp [join_actors, ih]

/-- C5: Relay.start first starts every Actor (groups in order, Actors
inside each group in order), then starts the log thread, then runs the
handler when one is supplied, then joins every started Actor in exactly
the start order, and only after the last join enqueues the eol sentinel
on the log channel and joins the log thread. -/
theorem relay_start_order (groups : List (List Nat)) (hasHandler : Bool) :
    relay_start groups hasHandler
      = (groups.flatten.map RelayEvent.startActor) ++ [RelayEvent.startLogThread]
        ++ (if hasHandler then [RelayEvent.handlerRun] else [])
        ++ (groups.flatten.map RelayEvent.joinActor)
        ++ [RelayEvent.logEol, RelayEvent.joinLogThread] := by
  simp [relay_start, start_actors_eq, join_actors_eq, join_logthread]

/-- One record of the log protocol: logger name, level, message and
args. -/
abbrev LogEntry := String × Nat × String × List String

/-- Value on the shared log channel: a record or the eol sentinel. -/
inductive LogMsg where
  | entry (e : LogEntry) : LogMsg
  | eolMark : LogMsg
deriving DecidableEq

/-- Logging state: the contents of the shared log channel and the
records written to the process wide logging sink. -/
structure LogCtx where
  q_log : List LogMsg
  sink : List LogEntry
deriving DecidableEq

/-- Message decoration performed by Actor.log before enqueueing. -/
def fmt_msg (group pname msg : String) : String :=
  "[" ++ group ++ "] (" ++ pname ++ ") " ++ msg

/-- Translation of Actor.log: decorate the message with the group label
and the process name, then put one (logger name, level, message, args)
tuple on the shared log channel; the process wide sink is not
touched. -/
def actor_log (group pname log_name : String) (level : Nat) (msg : String)
    (args : List String) (st : LogCtx) : LogCtx :=
  { st with
    q_log := st.q_log ++ [LogMsg.entry (log_name, level, fmt_msg group pname msg, args)] }

/-- Translation of the thread body in Relay._start_logthread: pump
records from the log channel and re-emit each one through the logging
sink, preserving logger name, level, message and args, until the eol
sentinel is read. -/
def log_thread : List LogMsg → List LogEntry
  | [] => []
  | LogMsg.eolMark :: _ => []
  | LogMsg.entry e :: rest => e :: log_thread rest

/-- C8: Actor.log writes nothing to the process wide sink; it enqueues
exactly one (logger name, level, message, args) tuple on the shared log
channel, the message being the given msg prefixed by log itself with the
group label and the process name; and the coordinator side log thread
re-emits every tuple dequeued before the eol sentinel, unchanged, so
logger name, level and args of each record are preserved. -/
theorem actor_log_spec (group pname log_name : String) (level : Nat) (msg : String)
    (args : List String) (st : LogCtx) :
    (actor_log group pname log_name level msg args st).sink = st.sink ∧
    (actor_log group pname log_name level msg args st).q_log
      = st.q_log ++ [LogMsg.entry (log_name, level, fmt_msg group pname msg, args)] ∧
    (∀ (entries : List LogEntry) (tail : List LogMsg),
      log_thread (entries.map LogMsg.entry ++ LogMsg.eolMark :: tail) = entries) := by
  refine ⟨rfl, rfl, ?_⟩
  intro entries tail
  induction entries with
  | nil => rfl
  | cons e rest ih => simp [log_thread, ih]

lemma dict_find_mem {γ : Type} {d : List (String × γ)} {k : String} {v : γ}
    (h : (k, v) ∈ d) : dict_find d k ≠ none := by
  induction d with
  | nil => simp at h
  | cons p rest ih =>
    by_cases hpk : p.1 = k
    · simp [dict_find, hpk]
    · rcases List.mem_cons.mp h with h1 | h2
      · exact absurd (by rw [← h1]) hpk
      · simpa [dict_find, hpk] using ih h2

lemma find_map_replace {γ : Type} (d : List (String × γ)) (k : String) (v : γ)
    (ha : (d.any fun p => p.1 == k) = true) :
    dict_find (d.map fun p => if p.1 == k then (k, v) else p) k = some v := by
  induction d with
  | nil => simp at ha
  | cons p rest ih =>
    by_cases hpk : p.1 = k
    · simp [dict_find, hpk]
    · have hb : (p.1 == k) = false := by simp [hpk]
      simp only [List.any_cons, hb, Bool.false_or] at ha
      simpa [dict_find, hb] using ih ha

lemma find_append_new {γ : Type} (d : List (String × γ)) (k : String) (v : γ)
    (ha : (d.any fun p => p.1 == k) = false) :
    dict_find (d ++ [(k, v)]) k = some v := by
  induction d with
  | nil => simp [dict_find]
  | cons p rest ih =>
    simp only [List.any_cons, Bool.or_eq_false_iff] at ha
    have hpk : ¬p.1 = k := by simpa using ha.1
    simpa [dict_find, hpk] using ih ha.2

lemma find_map_replace_other {γ : Type} (d : List (String × γ)) (k k2 : String) (v : γ)
    (hne : k2 ≠ k) :
    dict_find (d.map fun p => if p.1 == k then (k, v) else p) k2 = dict_find d k2 := by
  induction d with
  | nil => rfl
  | cons p rest ih =>
    by_cases hpk : p.1 = k
    · have hb : (k == k2) = false := by simp [Ne.symm hne]
      have hb2 : (p.1 == k2) = false := by simp [hpk, Ne.symm hne]
      simp [dict_find, hpk, hb, hb2]
      simpa using ih
    · by_cases hp2 : p.1 = k2
      · simp [dict_find, hpk, hp2, hne]
      · simp [dict_find, hpk, hp2]
        simpa using ih

lemma find_append_other {γ : Type} (d : List (String × γ)) (k k2 : String) (v : γ)
    (hne : k2 ≠ k) :
    dict_find (d ++ [(k, v)]) k2 = dict_find d k2 := by
  induction d with
  | nil => simp [dict_find, Ne.symm hne]
  | cons p rest ih =>
    by_cases hp2 : p.1 = k2
    · simp [dict_find, hp2]
    · simp [dict_find, hp2, ih]

lemma dict_find_insert_self {γ : Type} (d : List (String × γ)) (k : String) (v : γ) :
    dict_find (dict_insert d k v) k = some v := by
  unfold dict_insert
  by_cases ha : (d.any fun p => p.1 == k) = true
  · rw [if_pos ha]
    exact find_map_replace d k v ha
  · rw [if_neg ha]
    exact find_append_new d k v (by rwa [Bool.not_eq_true] at ha)

lemma dict_find_insert_other {γ : Type} (d : List (String × γ)) (k k2 : String) (v : γ)
    (hne : k2 ≠ k) :
    dict_find (dict_insert d k v) k2 = dict_find d k2 := by
  unfold dict_insert
  by_cases ha : (d.any fun p => p.1 == k) = true
  · rw [if_pos ha]
    exact find_map_replace_other d k k2 v hne
  · rw [if_neg ha]
    exact find_append_other d k k2 v hne

lemma dict_find_insert_ne_none {γ : Type} (d : List (String × γ)) (k k2 : String) (v : γ)
    (h : dict_find d k2 ≠ none) :
    dict_find (dict_insert d k v) k2 ≠ none := by
  by_cases hk : k2 = k
  · subst hk
    rw [dict_find_insert_self]
    simp
  · rw [dict_find_insert_other d k k2 v hk]
    exact h

lemma any_of_find {γ : Type} (d : List (String × γ)) (k : String)
    (h : dict_find d k ≠ none) :
    (d.any fun p => p.1 == k) = true := by
  induction d with
  | nil => simp [dict_find] at h
  | cons p rest ih =>
    by_cases hpk : p.1 = k
    · simp [hpk]
    · have hb : (p.1 == k) = false := by simp [hpk]
      simp only [dict_find, hb, Bool.false_eq_true, if_false] at h
      simp only [List.any_cons, hb, Bool.false_or]
      exact ih h

lemma dict_insert_length_le {γ : Type} (d : List (String × γ)) (k : String) (v : γ) :
    (dict_insert d k v).length ≤ d.length + 1 := by
  unfold dict_insert
  by_cases ha : (d.any fun p => p.1 == k) = true
  · rw [if_pos ha]
    simp
  · rw [if_neg ha]
    simp

lemma dict_insert_length_of_find {γ : Type} (d : List (String × γ)) (k : String) (v : γ)
    (h : dict_find d k ≠ none) :
    (dict_insert d k v).length = d.length := by
  unfold dict_insert
  rw [if_pos (any_of_find d k h)]
  simp

lemma dict_union_length_le {γ : Type} (d2 : List (String × γ)) :
    ∀ d1 : List (String × γ), (dict_union d1 d2).length ≤ d1.length + d2.length := by
  induction d2 with
  | nil =>
    intro d1
    simp [dict_union]
  | cons q rest ih =>
    intro d1
    have heq : dict_union d1 (q :: rest) = dict_union (dict_insert d1 q.1 q.2) rest := rfl
    rw [heq]
    have h1 := ih (dict_insert d1 q.1 q.2)
    have h2 := dict_insert_length_le d1 q.1 q.2
    simp only [List.length_cons]
    omega

lemma dict_union_length_lt {γ : Type} (d2 : List (String × γ)) :
    ∀ d1 : List (String × γ), (∃ p ∈ d2, dict_find d1 p.1 ≠ none) →
      (dict_union d1 d2).length < d1.length + d2.length := by
  induction d2 with
  | nil =>
    intro d1 h
    simp at h
  | cons q rest ih =>
    intro d1 h
    have heq : dict_union d1 (q :: rest) = dict_union (dict_insert d1 q.1 q.2) rest := rfl
    rw [heq]
    by_cases hq : dict_find d1 q.1 ≠ none
    · have h1 := dict_union_length_le rest (dict_insert d1 q.1 q.2)
      have h2 := dict_insert_length_of_find d1 q.1 q.2 hq
      simp only [List.length_cons]
      omega
    · obtain ⟨p, hp, hfind⟩ := h
      rcases List.mem_cons.mp hp with h1 | h2
      · exact absurd (h1 ▸ hfind) hq
      · have h3 := ih (dict_insert d1 q.1 q.2) ⟨p, h2, dict_find_insert_ne_none _ _ _ _ hfind⟩
        have h4 := dict_insert_length_le d1 q.1 q.2
        simp only [List.length_cons]
        omega

lemma dict_union_find_of_not_mem {γ : Type} (d2 : List (String × γ)) :
    ∀ (d1 : List (String × γ)) (k : String), (∀ p ∈ d2, p.1 ≠ k) →
      dict_find (dict_union d1 d2) k = dict_find d1 k := by
  induction d2 with
  | nil =>
    intro d1 k _
    rfl
  | cons q rest ih =>
    intro d1 k h
    have heq : dict_union d1 (q :: rest) = dict_union (dict_insert d1 q.1 q.2) rest := rfl
    rw [heq, ih _ k fun p hp => h p (List.mem_cons_of_mem _ hp)]
    exact dict_find_insert_other d1 q.1 k q.2 (Ne.symm (h q (List.mem_cons_self _ _)))

lemma dict_union_find_nodup {γ : Type} (d2 : List (String × γ)) :
    ∀ (d1 : List (String × γ)) (k : String) (v : γ),
      (d2.map Prod.fst).Nodup → (k, v) ∈ d2 →
      dict_find (dict_union d1 d2) k = some v := by
  induction d2 with
  | nil =>
    intro d1 k v _ h
    simp at h
  | cons q rest ih =>
    intro d1 k v hnd hmem
    have heq : dict_union d1 (q :: rest) = dict_union (dict_insert d1 q.1 q.2) rest := rfl
    rw [heq]
    simp only [List.map_cons, List.nodup_cons] at hnd
    rcases List.mem_cons.mp hmem with h1 | h2
    · have hk : q.1 = k := by rw [← h1]
      have hv : q.2 = v := by rw [← h1]
      have hne : ∀ p ∈ rest, p.1 ≠ k := by
        intro p hp hc
        exact hnd.1 (by rw [hk]; exact hc ▸ List.mem_map_of_mem Prod.fst hp)
      rw [dict_union_find_of_not_mem rest _ k hne, ← hk, ← hv]
      exact dict_find_insert_self d1 q.1 q.2
    · exact ih _ k v hnd.2 h2

lemma dict_find_pos_names (args : List GArg) :
    ∀ base i : Nat, i < args.length →
      dict_find ((List.enumFrom base args).map fun p => (group_name p.1, p.2))
        (group_name (base + i)) ≠ none := by
  induction args with
  | nil =>
    intro base i hi
    simp at hi
  | cons a rest ih =>
    intro base i hi
    cases i with
    | zero =>
      simp [List.enumFrom, dict_find]
    | succ j =>
      by_cases hb : (group_name base == group_name (base + (j + 1))) = true
      · simp [List.enumFrom, dict_find, hb]
      · rw [Bool.not_eq_true] at hb
        have harr : base + (j + 1) = (base + 1) + j := by omega
        simp only [List.enumFrom, List.map_cons, dict_find, hb, Bool.false_eq_true, if_false]
        rw [harr]
        exact ih (base + 1) j (by simpa using Nat.lt_of_succ_lt_succ (by simpa using hi))

/-- C10: the group mapping of Relay.connect assigns the auto generated
name to each positional argument and merges the keyword arguments over
it with keyword precedence: a keyword argument whose name is group-i
with i below the number of positional arguments silently replaces the
i-th positional group, and the resulting pipeline has strictly fewer
groups than arguments were supplied. -/
theorem connect_kwarg_precedence
    (args : List GArg) (kwargs : List (String × GArg)) (i : Nat) (v : GArg)
    (hnd : (kwargs.map Prod.fst).Nodup)
    (hmem : (group_name i, v) ∈ kwargs)
    (hi : i < args.length) :
    dict_find (dict_union (args.enum.map fun p => (group_name p.1, p.2)) kwargs)
        (group_name i) = some v ∧
    (dict_union (args.enum.map fun p => (group_name p.1, p.2)) kwargs).length
        < args.length + kwargs.length ∧
    (∀ (maxsize : Option Nat) (r : ConnectResult),
      connect maxsize args kwargs = some r →
      r.groups.length < args.length + kwargs.length) := by
  have henum : args.enum = List.enumFrom 0 args := rfl
  have hfind0 : dict_find (args.enum.map fun p => (group_name p.1, p.2))
      (group_name i) ≠ none := by
    have h := dict_find_pos_names args 0 i hi
    rw [henum]
    simpa using h
  have hd1len : (args.enum.map fun p => (group_name p.1, p.2)).length = args.length := by
    simp
  have hlt : (dict_union (args.enum.map fun p => (group_name p.1, p.2)) kwargs).length
      < args.length + kwargs.length := by
    have h := dict_union_length_lt kwargs (args.enum.map fun p => (group_name p.1, p.2))
      ⟨(group_name i, v), hmem, hfind0⟩
    rw [hd1len] at h
    exact h
  refine ⟨dict_union_find_nodup kwargs _ _ _ hnd hmem, hlt, ?_⟩
  intro m r hr
  have hc : args.length + kwargs.length > 1 := by
    have h2 : 0 < kwargs.length := List.length_pos_of_mem hmem
    omega
  simp only [connect] at hr
  rw [if_pos hc] at hr
  injection hr with hr
  subst hr
  calc (((dict_union (args.enum.map fun p => (group_name p.1, p.2)) kwargs).map
          Prod.fst).zip (wire_groups ((dict_union (args.enum.map fun p =>
            (group_name p.1, p.2)) kwargs).map fun p => ensure_list p.2))).length
      ≤ ((dict_union (args.enum.map fun p => (group_name p.1, p.2)) kwargs).map
          Prod.fst).length := by
        rw [List.length_zip]
        exact Nat.min_le_left _ _
    _ = (dict_union (args.enum.map fun p => (group_name p.1, p.2)) kwargs).length := by
        simp
    _ < args.length + kwargs.length := hlt

/-- Witness for connect_kwarg_precedence: two positional groups and the
keyword group-0; the keyword value replaces the first positional group
and only two groups remain of three supplied arguments. -/
theorem connect_kwarg_precedence_witness :
    dict_find (dict_union ([Sum.inl ({} : ActorC), Sum.inl {}].enum.map fun p =>
        (group_name p.1, p.2)) [("group-0", (Sum.inr [] : GArg))]) (group_name 0)
      = some (Sum.inr []) ∧
    (dict_union ([Sum.inl ({} : ActorC), Sum.inl {}].enum.map fun p =>
        (group_name p.1, p.2)) [("group-0", (Sum.inr [] : GArg))]).length < 3 := by
  have h := connect_kwarg_precedence [Sum.inl {}, Sum.inl {}]
    [("group-0", (Sum.inr [] : GArg))] 0 (Sum.inr [])
    (by decide)
    (by rw [show group_name 0 = "group-0" by decide]; exact List.mem_singleton.mpr rfl)
    (by decide)
  exact ⟨h.1, by simpa using h.2.1⟩

end KtzMp
